import Mathlib

/-!
Shallow embedding of the todo application core:
the drizzle table `todos` (db/schema.ts), the three server actions
addTodo / toggleTodo / deleteTodo (actions/todos.ts), the list query of
the TodoList server component (components/TodoList.tsx) and the
optimistic per-item view state of TodoItem (components/TodoItem.tsx).
The backing Postgres table is modelled as a list of rows in physical
(insertion) order together with the serial id counter; timestamps are
naturals; each handler returns its result, the resulting store and the
trace of externally visible effects (store access and revalidatePath).
-/

/-- A row of the todos table: id serial primary key, text not null,
completed boolean default false, created_at timestamp default now
(db/schema.ts). -/
structure Todo where
  id : Nat
  text : String
  completed : Bool
  createdAt : Nat
  deriving Repr, DecidableEq

/-- The backing table: rows in physical insertion order plus the next
value of the id serial sequence. -/
structure Store where
  rows : List Todo
  nextId : Nat
  deriving Repr, DecidableEq

/-- A fresh table; Postgres serial sequences start at 1. -/
def emptyStore : Store := { rows := [], nextId := 1 }

/-- The errors thrown by the server actions: addTodo throws on empty
text, toggleTodo throws on a missing id (actions/todos.ts). -/
inductive TodoError where
  | validation (msg : String)
  | notFound (msg : String)
  deriving Repr, DecidableEq

/-- Externally visible effects of a handler run, in order: store reads,
store mutations and the revalidatePath staleness signal. -/
inductive Effect where
  | storeRead
  | storeMutation
  | revalidatePath (path : String)
  deriving Repr, DecidableEq

/-- True exactly on the revalidatePath staleness signal. -/
def Effect.isInvalidation : Effect → Bool
  | .revalidatePath _ => true
  | _ => false

/-- True exactly on successful handler results. -/
def resultOk : Except TodoError Unit → Bool
  | .ok _ => true
  | .error _ => false

/-- Executable model of text.trim() of the actions: remove whitespace
characters from both ends of the string. -/
def trim (s : String) : String :=
  ⟨((s.data.dropWhile Char.isWhitespace).reverse.dropWhile Char.isWhitespace).reverse⟩

/-- addTodo from actions/todos.ts: rejects text that is empty after
trimming before any store access, otherwise inserts a row with the
trimmed text, the fresh serial id, completed defaulting to false and
created_at defaulting to now, then revalidates. -/
def addTodo (s : Store) (text : String) (now : Nat) :
    Except TodoError Unit × Store × List Effect :=
  if trim text = "" then
    (.error (.validation "Todo text cannot be empty"), s, [])
  else
    let item : Todo :=
      { id := s.nextId, text := trim text, completed := false, createdAt := now }
    (.ok (), { rows := s.rows ++ [item], nextId := s.nextId + 1 },
     [.storeMutation, .revalidatePath "/"])

/-- The findFirst query of toggleTodo: the first row whose id matches. -/
def Store.findFirst (s : Store) (id : Nat) : Option Todo :=
  s.rows.find? (fun t => t.id == id)

/-- toggleTodo from actions/todos.ts: reads the row by id, throws if it
is missing, otherwise updates completed to the negation of the value
read on every row matching the id, then revalidates. -/
def toggleTodo (s : Store) (id : Nat) :
    Except TodoError Unit × Store × List Effect :=
  match s.findFirst id with
  | none => (.error (.notFound "Todo not found"), s, [.storeRead])
  | some todo =>
      (.ok (),
       { s with rows := s.rows.map (fun t =>
           if t.id == id then { t with completed := !todo.completed } else t) },
       [.storeRead, .storeMutation, .revalidatePath "/"])

/-- deleteTodo from actions/todos.ts: deletes every row matching the id
(a no-op when none matches, with no error), then revalidates. -/
def deleteTodo (s : Store) (id : Nat) :
    Except TodoError Unit × Store × List Effect :=
  (.ok (), { s with rows := s.rows.filter (fun t => t.id != id) },
   [.storeMutation, .revalidatePath "/"])

/-- Stable insertion into a list sorted by createdAt descending: the new
element goes before the first element whose createdAt is not larger. -/
def insertByCreatedAtDesc (t : Todo) : List Todo → List Todo
  | [] => [t]
  | u :: us =>
      if u.createdAt ≤ t.createdAt then t :: u :: us
      else u :: insertByCreatedAtDesc t us

/-- The TodoList query (components/TodoList.tsx): findMany ordered by
createdAt descending. The SQL order clause names only created_at, so
ties are returned in the physical row order of the table; the model
realises this as a stable descending sort of the rows. -/
def Store.list (s : Store) : List Todo :=
  s.rows.foldr insertByCreatedAtDesc []

/-- The active-count filter of TodoList (components/TodoList.tsx). -/
def activeTodos (l : List Todo) : List Todo := l.filter (fun t => !t.completed)

/-- The completed-count filter of TodoList (components/TodoList.tsx). -/
def completedTodos (l : List Todo) : List Todo := l.filter (fun t => t.completed)

/-- The per-item view state of TodoItem (components/TodoItem.tsx): the
authoritative completed flag received as a prop, plus the pending
optimistic value of the useOptimistic hook, if any. -/
structure ViewState where
  base : Bool
  optimistic : Option Bool
  deriving Repr, DecidableEq

/-- The displayed checkbox state: the optimistic value when one is
pending, else the authoritative prop. -/
def optimisticCompleted (v : ViewState) : Bool := v.optimistic.getD v.base

/-- The optimistic update performed by handleToggle before the server
call (components/TodoItem.tsx): set the optimistic value to the
negation of the currently displayed one. -/
def handleToggleOptimistic (v : ViewState) : ViewState :=
  { v with optimistic := some (!optimisticCompleted v) }

/-- Modelled from the spec: the reconciliation step of the view refresh
protocol when the in-flight toggleTodo call fails. The optimistic value
is discarded and the display reverts to the last authoritative value;
the failed handler performed no revalidation, so the authoritative base
is unchanged. The React useOptimistic discard itself is framework
behaviour, not code under src. -/
def settleFailed (v : ViewState) : ViewState := { v with optimistic := none }

/-! ### Shared lemmas about the list query -/

/-- Stable insertion permutes: the result is the element consed on. -/
theorem perm_insertByCreatedAtDesc (t : Todo) (l : List Todo) :
    List.Perm (insertByCreatedAtDesc t l) (t :: l) := by
  induction l with
  | nil => exact List.Perm.refl [t]
  | cons u us ih =>
    rw [insertByCreatedAtDesc]
    by_cases hc : u.createdAt ≤ t.createdAt
    · rw [if_pos hc]
    · rw [if_neg hc]
      exact (ih.cons u).trans (List.Perm.swap t u us)

/-- Membership in a stable insertion. -/
theorem mem_insertByCreatedAtDesc {x t : Todo} {l : List Todo} :
    x ∈ insertByCreatedAtDesc t l ↔ x = t ∨ x ∈ l := by
  rw [(perm_insertByCreatedAtDesc t l).mem_iff]
  simp

/-- Stable insertion preserves sortedness by createdAt descending. -/
theorem pairwise_insertByCreatedAtDesc (t : Todo) (l : List Todo)
    (h : l.Pairwise (fun a b => b.createdAt ≤ a.createdAt)) :
    (insertByCreatedAtDesc t l).Pairwise (fun a b => b.createdAt ≤ a.createdAt) := by
  induction l with
  | nil => simp [insertByCreatedAtDesc]
  | cons u us ih =>
    rw [List.pairwise_cons] at h
    rw [insertByCreatedAtDesc]
    by_cases hc : u.createdAt ≤ t.createdAt
    · simp only [hc, if_true]
      rw [List.pairwise_cons]
      refine ⟨?_, List.pairwise_cons.mpr h⟩
      intro b hb
      rcases List.mem_cons.mp hb with hb | hb
      · exact hb ▸ hc
      · exact le_trans (h.1 b hb) hc
    · simp only [hc, if_false]
      rw [List.pairwise_cons]
      refine ⟨?_, ih h.2⟩
      intro b hb
      rcases mem_insertByCreatedAtDesc.mp hb with hb | hb
      · exact hb ▸ le_of_lt (lt_of_not_le hc)
      · exact h.1 b hb

/-- The list query returns exactly the rows of the table. -/
theorem list_perm_rows (s : Store) : List.Perm s.list s.rows := by
  show List.Perm (s.rows.foldr insertByCreatedAtDesc []) s.rows
  induction s.rows with
  | nil => exact List.Perm.refl []
  | cons u us ih =>
    exact (perm_insertByCreatedAtDesc u (us.foldr insertByCreatedAtDesc [])).trans
      (ih.cons u)

/-- The list query is sorted by createdAt descending. -/
theorem list_pairwise (s : Store) :
    s.list.Pairwise (fun a b => b.createdAt ≤ a.createdAt) := by
  show (s.rows.foldr insertByCreatedAtDesc []).Pairwise _
  induction s.rows with
  | nil => simp
  | cons u us ih => exact pairwise_insertByCreatedAtDesc u _ ih

/-! ### Shared lemmas about the update statement of toggleTodo -/

/-- The update of toggleTodo writes completed on the matching rows and
preserves ids, so finding the first matching row afterwards finds the
updated image of the row found before. -/
theorem find?_map_setCompleted (rows : List Todo) (id : Nat) (c : Bool) :
    ((rows.map (fun t => if t.id == id then { t with completed := c } else t)).find?
        (fun t => t.id == id)) =
      (rows.find? (fun t => t.id == id)).map
        (fun t => if t.id == id then { t with completed := c } else t) := by
  induction rows with
  | nil => rfl
  | cons u us ih =>
    rw [List.map_cons]
    by_cases h : u.id = id
    · have hb : (u.id == id) = true := by simp [h]
      rw [if_pos hb]
      rw [List.find?_cons_of_pos (p := fun t : Todo => t.id == id) _
          (show ((Todo.mk u.id u.text c u.createdAt).id == id) = true from hb),
        List.find?_cons_of_pos (p := fun t : Todo => t.id == id) _ hb]
      simp [hb, h]
    · have hb : ¬ ((u.id == id) = true) := by simp [h]
      rw [if_neg hb, List.find?_cons_of_neg (p := fun t : Todo => t.id == id) _ hb,
        List.find?_cons_of_neg (p := fun t : Todo => t.id == id) _ hb]
      exact ih

/-- Idempotence of a row filter. -/
theorem filter_idem (p : Todo → Bool) (l : List Todo) :
    (l.filter p).filter p = l.filter p :=
  List.filter_eq_self.mpr (fun _ ha => (List.mem_filter.mp ha).2)

/-- On a found id, toggleTodo succeeds, updates completed on the matching
rows, finds the flipped row afterwards, and traces read, mutation,
revalidation in that order. -/
theorem toggleTodo_found (s : Store) (id : Nat) (todo : Todo)
    (h : s.findFirst id = some todo) :
    (toggleTodo s id).1 = .ok () ∧
    (toggleTodo s id).2.1.rows = s.rows.map (fun t =>
      if t.id == id then { t with completed := !todo.completed } else t) ∧
    (toggleTodo s id).2.1.findFirst id =
      some { todo with completed := !todo.completed } ∧
    (toggleTodo s id).2.2 =
      [.storeRead, .storeMutation, .revalidatePath "/"] := by
  have h' : s.rows.find? (fun t => t.id == id) = some todo := h
  have hpb0 := List.find?_some h'
  have hpb : (todo.id == id) = true := hpb0
  have heq : toggleTodo s id
      = (.ok (),
         { s with rows := s.rows.map (fun t =>
             if t.id == id then { t with completed := !todo.completed } else t) },
         [.storeRead, .storeMutation, .revalidatePath "/"]) := by
    simp only [toggleTodo, h]
  refine ⟨?_, ?_, ?_, ?_⟩
  · rw [heq]
  · rw [heq]
  · rw [heq]
    show ((s.rows.map (fun t =>
        if t.id == id then { t with completed := !todo.completed } else t)).find?
        (fun t => t.id == id)) = some { todo with completed := !todo.completed }
    rw [find?_map_setCompleted, h']
    simp [hpb]
    intro hne
    exact absurd (beq_iff_eq.mp hpb) hne
  · rw [heq]

/-- Store after inserting A, then B, then C with equal-resolution
timestamps. -/
def scenarioABC : Store :=
  (addTodo ((addTodo ((addTodo emptyStore "A" 0).2.1) "B" 0).2.1) "C" 0).2.1

/-- C1: the claimed id-descending tie-break fails on the code. The list
query orders only by createdAt descending, so inserting A, then B, then
C with equal timestamps returns the texts as A, B, C, not as C, B, A. -/
theorem C1_counterexample :
    scenarioABC.list.map (fun t => t.text) = ["A", "B", "C"] ∧
    ¬ (scenarioABC.list.map (fun t => t.text) = ["C", "B", "A"]) := by
  exact ⟨by decide, by decide⟩

/-- C1 (amended): the list query returns all items of the store ordered
by createdAt descending; the query names no secondary sort key, so items
with equal createdAt keep the physical row (insertion) order of the
table rather than id-descending order, and the A, B, C scenario with
equal timestamps yields A, B, C. -/
theorem C1_list_ordered (s : Store) :
    List.Perm s.list s.rows ∧
    s.list.Pairwise (fun a b => b.createdAt ≤ a.createdAt) ∧
    scenarioABC.list.map (fun t => t.text) = ["A", "B", "C"] :=
  ⟨list_perm_rows s, list_pairwise s, by decide⟩

/-- C2: for text that is non-empty after trimming, addTodo succeeds and
appends exactly one new item carrying the trimmed text, completed false,
the creation time, and an id distinct from every prior item; the list
query then returns the new item together with the prior ones. -/
theorem C2_addTodo_adds (s : Store) (text : String) (now : Nat)
    (h : trim text ≠ "") (hid : ∀ u ∈ s.rows, u.id < s.nextId) :
    ∃ item : Todo,
      (addTodo s text now).1 = .ok () ∧
      (addTodo s text now).2.1.rows = s.rows ++ [item] ∧
      item.text = trim text ∧
      item.completed = false ∧
      item.createdAt = now ∧
      (∀ u ∈ s.rows, u.id ≠ item.id) ∧
      List.Perm (addTodo s text now).2.1.list (item :: s.list) := by
  have heq : addTodo s text now
      = (.ok (),
         { rows := s.rows ++ [⟨s.nextId, trim text, false, now⟩],
           nextId := s.nextId + 1 },
         [.storeMutation, .revalidatePath "/"]) := by
    simp only [addTodo, if_neg h]
  refine ⟨⟨s.nextId, trim text, false, now⟩, ?_, ?_, rfl, rfl, rfl, ?_, ?_⟩
  · rw [heq]
  · rw [heq]
  · intro u hu
    exact Nat.ne_of_lt (hid u hu)
  · have h1 := list_perm_rows (addTodo s text now).2.1
    rw [show (addTodo s text now).2.1.rows
        = s.rows ++ [⟨s.nextId, trim text, false, now⟩] from by rw [heq]] at h1
    exact h1.trans ((List.perm_append_singleton _ _).trans
      (((list_perm_rows s).symm).cons _))

/-- C3: for text that is empty after trimming, addTodo fails with the
validation error, performs no store access at all (empty effect trace),
returns the store unchanged, and the list query is unchanged. -/
theorem C3_addTodo_rejects_empty (s : Store) (text : String) (now : Nat)
    (h : trim text = "") :
    addTodo s text now
        = (.error (.validation "Todo text cannot be empty"), s, []) ∧
    (addTodo s text now).2.1.list = s.list := by
  have he : addTodo s text now
      = (.error (.validation "Todo text cannot be empty"), s, []) := by
    simp only [addTodo, if_pos h]
  exact ⟨he, by rw [he]⟩

/-- C4: toggling an existing item flips its completed flag (true becomes
false and false becomes true), and toggling twice in succession returns
the flag to its original value. -/
theorem C4_toggleTodo_flips (s : Store) (id : Nat) (todo : Todo)
    (h : s.findFirst id = some todo) :
    (toggleTodo s id).1 = .ok () ∧
    (toggleTodo s id).2.1.findFirst id
      = some { todo with completed := !todo.completed } ∧
    ((toggleTodo (toggleTodo s id).2.1 id).2.1).findFirst id = some todo := by
  obtain ⟨hok, -, hfind, -⟩ := toggleTodo_found s id todo h
  refine ⟨hok, hfind, ?_⟩
  obtain ⟨-, -, hfind2, -⟩ :=
    toggleTodo_found (toggleTodo s id).2.1 id _ hfind
  rw [hfind2]
  simp

/-- C5: toggling an id absent from the store fails with the not-found
error, performs only the read, and returns the store completely
unchanged. -/
theorem C5_toggleTodo_missing (s : Store) (id : Nat)
    (h : s.findFirst id = none) :
    toggleTodo s id = (.error (.notFound "Todo not found"), s, [.storeRead]) := by
  simp only [toggleTodo, h]

/-- C6: deleteTodo succeeds on every id; afterwards the list query holds
no item with that id; on an id absent from the store it leaves the store
unchanged; and a second call on the same id is a no-op with no error. -/
theorem C6_deleteTodo (s : Store) (id : Nat) :
    (deleteTodo s id).1 = .ok () ∧
    (∀ t ∈ (deleteTodo s id).2.1.list, t.id ≠ id) ∧
    ((∀ t ∈ s.rows, t.id ≠ id) → (deleteTodo s id).2.1 = s) ∧
    deleteTodo (deleteTodo s id).2.1 id = deleteTodo s id := by
  refine ⟨rfl, ?_, ?_, ?_⟩
  · intro t ht
    have hmem : t ∈ (deleteTodo s id).2.1.rows :=
      (list_perm_rows (deleteTodo s id).2.1).subset ht
    have hf : (t.id != id) = true := (List.mem_filter.mp hmem).2
    exact bne_iff_ne.mp hf
  · intro hall
    have hfil : s.rows.filter (fun t => t.id != id) = s.rows :=
      List.filter_eq_self.mpr (fun a ha => bne_iff_ne.mpr (hall a ha))
    show ({ s with rows := s.rows.filter (fun t => t.id != id) } : Store) = s
    rw [hfil]
  · show (.ok (), { s with rows :=
        (s.rows.filter (fun t => t.id != id)).filter (fun t => t.id != id) },
      ([.storeMutation, .revalidatePath "/"] : List Effect)) = deleteTodo s id
    rw [filter_idem]
    rfl

/-- C7: a successful toggleTodo changes at most the completed field: the
store keeps the same number of rows, every row keeps its id, text and
createdAt, and every row whose id differs from the toggled one is
entirely unchanged. -/
theorem C7_toggleTodo_frame (s : Store) (id : Nat) (todo : Todo)
    (h : s.findFirst id = some todo) :
    (toggleTodo s id).2.1.rows.length = s.rows.length ∧
    ∀ i : Nat, ∀ t t1 : Todo,
      s.rows[i]? = some t → (toggleTodo s id).2.1.rows[i]? = some t1 →
      t1.id = t.id ∧ t1.text = t.text ∧ t1.createdAt = t.createdAt ∧
      (t.id ≠ id → t1 = t) := by
  obtain ⟨-, hrows, -, -⟩ := toggleTodo_found s id todo h
  rw [hrows]
  refine ⟨List.length_map _ _, ?_⟩
  intro i t t1 hti ht1
  rw [List.getElem?_map, hti, Option.map_some'] at ht1
  have ht1e : t1
      = if t.id == id then { t with completed := !todo.completed } else t :=
    (Option.some_inj.mp ht1).symm
  by_cases hc : t.id = id
  · subst ht1e
    simp [hc]
  · have hcb : ¬ ((t.id == id) = true) := by simp [hc]
    rw [if_neg hcb] at ht1e
    subst ht1e
    exact ⟨rfl, rfl, rfl, fun _ => rfl⟩

/-- Exactly one staleness signal, placed after the store mutation. -/
def oneInvalidationAfterMutation (es : List Effect) : Prop :=
  es.countP (fun e => e.isInvalidation) = 1 ∧
  ∃ i j : Nat, i < j ∧ es[i]? = some Effect.storeMutation ∧
    es[j]? = some (Effect.revalidatePath "/")

/-- The successful trace of addTodo and deleteTodo invalidates once,
after the mutation. -/
theorem oneInv_add_delete :
    oneInvalidationAfterMutation
      [Effect.storeMutation, Effect.revalidatePath "/"] :=
  ⟨rfl, 0, 1, Nat.zero_lt_one, rfl, rfl⟩

/-- The successful trace of toggleTodo invalidates once, after the
mutation. -/
theorem oneInv_toggle :
    oneInvalidationAfterMutation
      [Effect.storeRead, Effect.storeMutation, Effect.revalidatePath "/"] :=
  ⟨rfl, 1, 2, Nat.lt_succ_self 1, rfl, rfl⟩

/-- C8: every successful run of addTodo, toggleTodo or deleteTodo issues
exactly one invalidation signal and issues it after the store mutation;
a run failing validation (empty text) or lookup (missing id) issues no
invalidation signal. -/
theorem C8_invalidation (s : Store) (text : String) (now : Nat)
    (idt idd : Nat) :
    (resultOk (addTodo s text now).1 = true →
      oneInvalidationAfterMutation (addTodo s text now).2.2) ∧
    (resultOk (addTodo s text now).1 = false →
      (addTodo s text now).2.2.countP (fun e => e.isInvalidation) = 0) ∧
    (resultOk (toggleTodo s idt).1 = true →
      oneInvalidationAfterMutation (toggleTodo s idt).2.2) ∧
    (resultOk (toggleTodo s idt).1 = false →
      (toggleTodo s idt).2.2.countP (fun e => e.isInvalidation) = 0) ∧
    (resultOk (deleteTodo s idd).1 = true ∧
      oneInvalidationAfterMutation (deleteTodo s idd).2.2) := by
  refine ⟨?_, ?_, ?_, ?_, rfl, oneInv_add_delete⟩
  · intro hok
    by_cases hT : trim text = ""
    · have h1 : (addTodo s text now).1
          = .error (.validation "Todo text cannot be empty") := by
        simp only [addTodo, if_pos hT]
      rw [h1] at hok
      exact absurd hok (by decide)
    · have h2 : (addTodo s text now).2.2
          = [Effect.storeMutation, Effect.revalidatePath "/"] := by
        simp only [addTodo, if_neg hT]
      rw [h2]
      exact oneInv_add_delete
  · intro hfail
    by_cases hT : trim text = ""
    · have h2 : (addTodo s text now).2.2 = [] := by
        simp only [addTodo, if_pos hT]
      rw [h2]
      rfl
    · have h1 : (addTodo s text now).1 = .ok () := by
        simp only [addTodo, if_neg hT]
      rw [h1] at hfail
      exact absurd hfail (by decide)
  · intro hok
    cases hF : s.findFirst idt with
    | none =>
      have h1 : (toggleTodo s idt).1 = .error (.notFound "Todo not found") := by
        simp only [toggleTodo, hF]
      rw [h1] at hok
      exact absurd hok (by decide)
    | some todo =>
      obtain ⟨-, -, -, htr⟩ := toggleTodo_found s idt todo hF
      rw [htr]
      exact oneInv_toggle
  · intro hfail
    cases hF : s.findFirst idt with
    | none =>
      have h2 : (toggleTodo s idt).2.2 = [Effect.storeRead] := by
        simp only [toggleTodo, hF]
      rw [h2]
      rfl
    | some todo =>
      obtain ⟨hok, -, -, -⟩ := toggleTodo_found s idt todo hF
      rw [hok] at hfail
      exact absurd hfail (by decide)

/-- C9: when the toggleTodo call issued after an optimistic flip fails,
settling discards the pending optimistic value: the displayed flag
equals the pre-toggle authoritative value and the view does not stay at
the optimistic guess. -/
theorem C9_optimistic_reverts (v : ViewState) :
    optimisticCompleted (settleFailed (handleToggleOptimistic v)) = v.base ∧
    settleFailed (handleToggleOptimistic v)
      = { base := v.base, optimistic := none } :=
  ⟨rfl, rfl⟩

/-- C10: the active and completed tallies of TodoList partition the
rendered list: their lengths always sum to the total number of items. -/
theorem C10_counts_partition (s : Store) :
    (activeTodos s.list).length + (completedTodos s.list).length
      = s.list.length := by
  suffices hgen : ∀ l : List Todo,
      (activeTodos l).length + (completedTodos l).length = l.length from
    hgen s.list
  intro l
  induction l with
  | nil => rfl
  | cons t ts ih =>
    rw [activeTodos, completedTodos, List.filter_cons, List.filter_cons]
    rw [activeTodos, completedTodos] at ih
    cases hc : t.completed
    · simp [hc]
      omega
    · simp [hc]
      omega

/-! ### Concrete stores used by the witnesses -/

/-- A store holding the single item inserted by addTodo on the fresh
store. -/
def store1 : Store := (addTodo emptyStore "milk" 5).2.1

/-- The item held by store1. -/
def item1 : Todo := { id := 1, text := "milk", completed := false, createdAt := 5 }

/-- C2 at a concrete input: the hypotheses hold for the fresh store and
the text hello, and addTodo appends the new item. -/
theorem C2_witness :
    (trim "hello" ≠ "") ∧
    (∀ u ∈ emptyStore.rows, u.id < emptyStore.nextId) ∧
    (∃ item : Todo,
      (addTodo emptyStore "hello" 0).1 = .ok () ∧
      (addTodo emptyStore "hello" 0).2.1.rows = emptyStore.rows ++ [item] ∧
      item.text = trim "hello" ∧
      item.completed = false ∧
      item.createdAt = 0 ∧
      (∀ u ∈ emptyStore.rows, u.id ≠ item.id) ∧
      List.Perm (addTodo emptyStore "hello" 0).2.1.list (item :: emptyStore.list)) :=
  ⟨by decide, by simp [emptyStore],
   C2_addTodo_adds emptyStore "hello" 0 (by decide) (by simp [emptyStore])⟩

/-- C3 at a concrete input: a whitespace-only text is rejected with the
validation error and the fresh store is unchanged. -/
theorem C3_witness :
    (trim "  " = "") ∧
    (addTodo emptyStore "  " 0
        = (.error (.validation "Todo text cannot be empty"), emptyStore, []) ∧
     (addTodo emptyStore "  " 0).2.1.list = emptyStore.list) :=
  ⟨by decide, C3_addTodo_rejects_empty emptyStore "  " 0 (by decide)⟩

/-- C4 at a concrete input: toggling the single item of store1 flips its
flag and toggling twice restores it. -/
theorem C4_witness :
    store1.findFirst 1 = some item1 ∧
    ((toggleTodo store1 1).1 = .ok () ∧
     (toggleTodo store1 1).2.1.findFirst 1
       = some { item1 with completed := !item1.completed } ∧
     ((toggleTodo (toggleTodo store1 1).2.1 1).2.1).findFirst 1 = some item1) :=
  ⟨by decide, C4_toggleTodo_flips store1 1 item1 (by decide)⟩

/-- C5 at a concrete input: toggling id 7 on the fresh store fails with
the not-found error and leaves the store unchanged. -/
theorem C5_witness :
    emptyStore.findFirst 7 = none ∧
    toggleTodo emptyStore 7
      = (.error (.notFound "Todo not found"), emptyStore, [.storeRead]) :=
  ⟨rfl, C5_toggleTodo_missing emptyStore 7 rfl⟩

/-- C6 at a concrete input: deleting the absent id 3 from the fresh
store leaves it unchanged and a second delete is also a no-op. -/
theorem C6_witness :
    (deleteTodo emptyStore 3).2.1 = emptyStore ∧
    deleteTodo (deleteTodo emptyStore 3).2.1 3 = deleteTodo emptyStore 3 := by
  have h := C6_deleteTodo emptyStore 3
  exact ⟨h.2.2.1 (by simp [emptyStore]), h.2.2.2⟩

/-- C7 at a concrete input: toggling the single item of store1 keeps the
row count and the identity fields of the row. -/
theorem C7_witness :
    store1.findFirst 1 = some item1 ∧
    (toggleTodo store1 1).2.1.rows.length = store1.rows.length := by
  have h := C7_toggleTodo_frame store1 1 item1 (by decide)
  exact ⟨by decide, h.1⟩

/-- C8 at a concrete input: a successful addTodo invalidates once after
the mutation, and a toggleTodo failing lookup issues no invalidation. -/
theorem C8_witness :
    oneInvalidationAfterMutation (addTodo emptyStore "hi" 0).2.2 ∧
    (toggleTodo emptyStore 9).2.2.countP (fun e => e.isInvalidation) = 0 := by
  have h := C8_invalidation emptyStore "hi" 0 9 9
  exact ⟨h.1 (by decide), h.2.2.2.1 (by decide)⟩

/-! ### The id freshness invariant assumed by the add claim -/

/-- Every row id is below the serial counter; holds for the fresh store
and is preserved by every handler. -/
def idInvariant (s : Store) : Prop := ∀ u ∈ s.rows, u.id < s.nextId

/-- The fresh store satisfies the invariant. -/
theorem idInvariant_empty : idInvariant emptyStore := by
  simp [idInvariant, emptyStore]

/-- addTodo preserves the invariant. -/
theorem idInvariant_addTodo (s : Store) (text : String) (now : Nat)
    (h : idInvariant s) : idInvariant (addTodo s text now).2.1 := by
  by_cases hT : trim text = ""
  · simp only [addTodo, if_pos hT]
    exact h
  · simp only [addTodo, if_neg hT, idInvariant]
    intro u hu
    rcases List.mem_append.mp hu with hu | hu
    · exact Nat.lt_succ_of_lt (h u hu)
    · rw [List.mem_singleton.mp hu]
      exact Nat.lt_succ_self _

/-- toggleTodo preserves the invariant. -/
theorem idInvariant_toggleTodo (s : Store) (id : Nat)
    (h : idInvariant s) : idInvariant (toggleTodo s id).2.1 := by
  cases hF : s.findFirst id with
  | none =>
    simp only [toggleTodo, hF]
    exact h
  | some todo =>
    simp only [toggleTodo, hF, idInvariant]
    intro u hu
    rcases List.mem_map.mp hu with ⟨t, ht, rfl⟩
    by_cases hc : (t.id == id) = true
    · rw [if_pos hc]
      exact h t ht
    · rw [if_neg hc]
      exact h t ht

/-- deleteTodo preserves the invariant. -/
theorem idInvariant_deleteTodo (s : Store) (id : Nat)
    (h : idInvariant s) : idInvariant (deleteTodo s id).2.1 := by
  intro u hu
  exact h u (List.mem_of_mem_filter hu)
